import Mathlib

/-!
Verification of the filecrypt cryptographic envelope (crypto/crypto.go).

Byte buffers are modelled as `List Nat`; the Go code performs no byte
arithmetic (only copy, compare and zeroise), so no modular reduction is
needed in the translated repository functions themselves.

External primitives (NaCl secretbox, scrypt, the system randomness source)
are not part of this repository; they are modelled as idealized executable
functions, with the idealization stated in each doc comment.  Randomness is
passed in explicitly: an `Option (List Nat)` supply where `none` models a
failed read from the system randomness source.

Mutation of buffers (the Zero calls) is made explicit by threading a
`BufState` value recording the caller-supplied buffers and the derived-key
buffers, together with a counter of key-derivation invocations.
-/

namespace Filecrypt

/-- keySize is the size of a NaCl secret key (crypto.go). -/
def keySize : Nat := 32

/-- nonceSize is the size of a NaCl nonce (crypto.go). -/
def nonceSize : Nat := 24

/-- saltSize is the size of the scrypt salt (crypto.go). -/
def saltSize : Nat := 32

/-- secretbox.Overhead: the Poly1305 tag size of NaCl secretbox (external library constant). -/
def sbOverhead : Nat := 16

/-- IterationsHigh: recommended scrypt N for file encryption (crypto.go). -/
def IterationsHigh : Nat := 1048576

/-- IterationsLow: scrypt N for interactive encryption (crypto.go). -/
def IterationsLow : Nat := 32768

/-- Iterations: the scrypt N used by filecrypt; defaults to IterationsHigh (crypto.go). -/
def Iterations : Nat := IterationsHigh

/-- Go copy(dst, src): overwrites the first min(len dst, len src) elements of
dst with those of src, leaving the rest of dst unchanged. -/
def copyBytes (dst src : List Nat) : List Nat :=
  src.take dst.length ++ dst.drop src.length

/-- Little-endian base-256 value of a byte list, reducing each element mod 256
(Go bytes are mod-256 values). -/
def bytesVal : List Nat → Nat
  | [] => 0
  | b :: l => b % 256 + 256 * bytesVal l

/-- A list is byte-valued when every element is below 256, as every Go byte slice is. -/
def validBytes (l : List Nat) : Prop := ∀ b ∈ l, b < 256

instance (l : List Nat) : Decidable (validBytes l) :=
  inferInstanceAs (Decidable (∀ b ∈ l, b < 256))

/-- Encoding of a byte list into a natural number, injective on byte-valued lists. -/
def byteEncode (l : List Nat) : Nat := Nat.pair l.length (bytesVal l)

/-- Pair-based value of a list of naturals, not reduced mod 256; used to feed
model keys (whose cells are unbounded naturals) into the ideal tag. -/
def natsVal : List Nat → Nat
  | [] => 0
  | b :: l => Nat.pair b (natsVal l)

/-- Modelled: the authentication tag of the ideal NaCl secretbox.  The tag is a
function of key, nonce and message, 16 bytes long; its first cell determines
key, nonce and message values, idealizing the collision-freeness that the spec
directs to treat as operationally absolute. -/
def sbTag (key nonce msg : List Nat) : List Nat :=
  Nat.pair (Nat.pair key.length (natsVal key))
      (Nat.pair (byteEncode nonce) (byteEncode msg)) ::
    List.replicate (sbOverhead - 1) 0

/-- Modelled: ideal secretbox.Seal with empty out parameter: tag followed by
the message, so that its length is the message length plus sbOverhead. -/
def sbSeal (key nonce msg : List Nat) : List Nat :=
  sbTag key nonce msg ++ msg

/-- Modelled: ideal secretbox.Open: succeeds exactly when the leading 16 bytes
equal the tag of the remainder under the given key and nonce. -/
def sbOpen (key nonce ct : List Nat) : Option (List Nat) :=
  if ct.take sbOverhead = sbTag key nonce (ct.drop sbOverhead) then
    some (ct.drop sbOverhead)
  else
    none

/-- Modelled: idealization of scrypt.Key (external library): deterministic,
returns keyLen bytes whose first cell determines passphrase and salt,
idealizing collision-freeness across distinct inputs.  The cost parameters do
not influence the ideal output. -/
def scryptKey (pass salt : List Nat) (N r p keyLen : Nat) : List Nat :=
  Nat.pair (byteEncode pass) (byteEncode salt) :: List.replicate (keyLen - 1) 0

/-- The two error values of crypto.go. -/
inductive Err where
  | ErrEncrypt
  | ErrDecrypt
  deriving DecidableEq, Repr

/-- Explicit buffer state threaded through Seal and Open: the caller-supplied
passphrase and message buffers, the derived NaCl key buffer and the scrypt
output buffer (none until allocated), and a count of deriveKey invocations. -/
structure BufState where
  passBuf : List Nat
  msgBuf : List Nat
  keyBuf : Option (List Nat)
  scryptBuf : Option (List Nat)
  derives : Nat
  deriving DecidableEq, Repr

/-- The buffer state at entry of Seal or Open: caller buffers hold the inputs,
no key buffer exists, no derivation has run. -/
def initState (pass message : List Nat) : BufState :=
  ⟨pass, message, none, none, 0⟩

/-- Zero attempts to zeroise its input (crypto.go Zero): the loop sets every
byte to 0; the result is the post-state of the buffer. -/
def Zero (input : List Nat) : List Nat := input.map (fun _ => 0)

/-- deriveKey generates a new NaCl key from a passphrase and salt
(crypto.go deriveKey): scrypt with N = Iterations, r = 8, p = 1, copied into a
fresh 32-byte array. -/
def deriveKey (pass salt : List Nat) : List Nat :=
  copyBytes (List.replicate keySize 0) (scryptKey pass salt Iterations 8 1 keySize)

/-- deriveKey with the buffer state made explicit: allocates the NaCl key
buffer, zeroises the intermediate scrypt output before returning, and counts
the invocation. -/
def deriveKeyT (pass salt : List Nat) (s : BufState) : List Nat × BufState :=
  let key := scryptKey pass salt Iterations 8 1 keySize
  let naclKey := copyBytes (List.replicate keySize 0) key
  (naclKey,
   { s with keyBuf := some naclKey, scryptBuf := some (Zero key),
            derives := s.derives + 1 })

/-- encrypt (crypto.go): generates a random nonce (from the explicit supply;
the nonce array is 24 bytes filled from the supply), prepends it, and seals
with secretbox.  Failure of the randomness source yields ErrEncrypt. -/
def encrypt (nonceR : Option (List Nat)) (key message : List Nat) :
    Except Err (List Nat) :=
  match nonceR with
  | none => Except.error Err.ErrEncrypt
  | some nr =>
    let nonce := copyBytes (List.replicate nonceSize 0) nr
    let out := copyBytes (List.replicate nonceSize 0) nonce
    Except.ok (out ++ sbSeal key nonce message)

/-- The length guard at the top of decrypt (crypto.go line 83):
len(message) < nonceSize + secretbox.Overhead. -/
def decryptLenGuard (message : List Nat) : Bool :=
  decide (message.length < nonceSize + sbOverhead)

/-- decrypt (crypto.go): rejects inputs shorter than nonce plus tag, extracts
the leading nonce into a fresh 24-byte array, and opens with secretbox; any
failure is ErrDecrypt. -/
def decrypt (key message : List Nat) : Except Err (List Nat) :=
  if decryptLenGuard message then
    Except.error Err.ErrDecrypt
  else
    let nonce := copyBytes (List.replicate nonceSize 0) (message.take nonceSize)
    match sbOpen key nonce (message.drop nonceSize) with
    | some out => Except.ok out
    | none => Except.error Err.ErrDecrypt

/-- Seal (crypto.go) with explicit randomness supplies and buffer state:
draws the salt (32-byte array filled from the supply), derives the key,
encrypts, zeroises the key buffer before inspecting the encryption error, and
prepends the salt on success. -/
def SealT (saltR nonceR : Option (List Nat)) (pass message : List Nat)
    (s : BufState) : Except Err (List Nat) × BufState :=
  match saltR with
  | none => (Except.error Err.ErrEncrypt, s)
  | some sr =>
    let salt := copyBytes (List.replicate saltSize 0) sr
    let (key, s1) := deriveKeyT pass salt s
    let res := encrypt nonceR key message
    let s2 := { s1 with keyBuf := some (Zero key) }
    match res with
    | Except.error _ => (Except.error Err.ErrEncrypt, s2)
    | Except.ok out => (Except.ok (salt ++ out), s2)

/-- overhead = saltSize + secretbox.Overhead + nonceSize (crypto.go line 127). -/
def overhead : Nat := saltSize + sbOverhead + nonceSize

/-- Open (crypto.go) with explicit buffer state: rejects inputs shorter than
overhead before any derivation, splits off the salt, derives the key,
decrypts, and zeroises the key buffer before inspecting the decryption
error. -/
def OpenT (pass message : List Nat) (s : BufState) :
    Except Err (List Nat) × BufState :=
  if message.length < overhead then
    (Except.error Err.ErrDecrypt, s)
  else
    let (key, s1) := deriveKeyT pass (message.take saltSize) s
    let res := decrypt key (message.drop saltSize)
    let s2 := { s1 with keyBuf := some (Zero key) }
    match res with
    | Except.error _ => (Except.error Err.ErrDecrypt, s2)
    | Except.ok out => (Except.ok out, s2)

/-- Seal as the caller sees it: the returned value of SealT from a fresh state. -/
def Seal (saltR nonceR : Option (List Nat)) (pass message : List Nat) :
    Except Err (List Nat) :=
  (SealT saltR nonceR pass message (initState pass message)).1

/-- Open as the caller sees it: the returned value of OpenT from a fresh state. -/
def Open (pass message : List Nat) : Except Err (List Nat) :=
  (OpenT pass message (initState pass message)).1

/-! Supporting lemmas -/

theorem length_copyBytes (dst src : List Nat) :
    (copyBytes dst src).length = dst.length := by
  simp [copyBytes]; omega

theorem copyBytes_eq_self (dst src : List Nat) (h : src.length = dst.length) :
    copyBytes dst src = src := by
  unfold copyBytes
  rw [← h, List.take_length, h, List.drop_length, List.append_nil]

theorem take_append_eq {α : Type} (a b : List α) (n : Nat) (h : a.length = n) :
    (a ++ b).take n = a := by
  subst h; exact List.take_left a b

theorem drop_append_eq {α : Type} (a b : List α) (n : Nat) (h : a.length = n) :
    (a ++ b).drop n = b := by
  subst h; exact List.drop_left a b

theorem Zero_eq_replicate (l : List Nat) : Zero l = List.replicate l.length 0 := by
  induction l with
  | nil => rfl
  | cons a t ih =>
    simp only [Zero, List.map_cons, List.length_cons, List.replicate_succ,
      List.cons.injEq, true_and]
    simpa [Zero] using ih

theorem length_scryptKey (pass salt : List Nat) (N r p : Nat) :
    (scryptKey pass salt N r p keySize).length = keySize := by
  simp [scryptKey, keySize]

theorem deriveKey_eq (pass salt : List Nat) :
    deriveKey pass salt =
      Nat.pair (byteEncode pass) (byteEncode salt) ::
        List.replicate (keySize - 1) 0 := by
  unfold deriveKey
  rw [copyBytes_eq_self _ _ (by simp [scryptKey, keySize])]
  simp [scryptKey, keySize]

theorem length_deriveKey (pass salt : List Nat) :
    (deriveKey pass salt).length = keySize := by
  rw [deriveKey_eq]; simp [keySize]

theorem Zero_deriveKey (pass salt : List Nat) :
    Zero (deriveKey pass salt) = List.replicate keySize 0 := by
  rw [Zero_eq_replicate, length_deriveKey]

theorem Zero_copy_scrypt (pass salt : List Nat) :
    Zero (copyBytes (List.replicate keySize 0)
        (scryptKey pass salt Iterations 8 1 keySize)) = List.replicate keySize 0 :=
  Zero_deriveKey pass salt

theorem Zero_scryptKey (pass salt : List Nat) :
    Zero (scryptKey pass salt Iterations 8 1 keySize) = List.replicate keySize 0 := by
  rw [Zero_eq_replicate, length_scryptKey]

theorem length_sbTag (k n m : List Nat) : (sbTag k n m).length = sbOverhead := by
  simp [sbTag, sbOverhead]

theorem length_sbSeal (k n m : List Nat) :
    (sbSeal k n m).length = m.length + sbOverhead := by
  simp [sbSeal, length_sbTag]; omega

theorem sbOpen_sbSeal (k n m : List Nat) : sbOpen k n (sbSeal k n m) = some m := by
  unfold sbOpen sbSeal
  rw [take_append_eq _ _ _ (length_sbTag k n m),
    drop_append_eq _ _ _ (length_sbTag k n m), if_pos rfl]

theorem sbOpen_sbSeal_of_ne (k k1 n m : List Nat)
    (h : sbTag k1 n m ≠ sbTag k n m) :
    sbOpen k n (sbSeal k1 n m) = none := by
  unfold sbOpen sbSeal
  rw [take_append_eq _ _ _ (length_sbTag k1 n m),
    drop_append_eq _ _ _ (length_sbTag k1 n m), if_neg h]

theorem bytesVal_inj : ∀ l1 l2 : List Nat, validBytes l1 → validBytes l2 →
    l1.length = l2.length → bytesVal l1 = bytesVal l2 → l1 = l2
  | [], [], _, _, _, _ => rfl
  | [], _ :: _, _, _, hl, _ => by simp at hl
  | _ :: _, [], _, _, hl, _ => by simp at hl
  | a :: l1, b :: l2, h1, h2, hl, hv => by
    have ha : a < 256 := h1 a (by simp)
    have hb : b < 256 := h2 b (by simp)
    have hv2 : a % 256 + 256 * bytesVal l1 = b % 256 + 256 * bytesVal l2 := hv
    rw [Nat.mod_eq_of_lt ha, Nat.mod_eq_of_lt hb] at hv2
    have hab : a = b ∧ bytesVal l1 = bytesVal l2 := by omega
    have ht : l1 = l2 :=
      bytesVal_inj l1 l2 (fun x hx => h1 x (by simp [hx]))
        (fun x hx => h2 x (by simp [hx])) (by simpa using hl) hab.2
    rw [hab.1, ht]

theorem byteEncode_inj {l1 l2 : List Nat} (h1 : validBytes l1)
    (h2 : validBytes l2) (he : byteEncode l1 = byteEncode l2) : l1 = l2 := by
  unfold byteEncode at he
  rw [Nat.pair_eq_pair] at he
  exact bytesVal_inj l1 l2 h1 h2 he.1 he.2

theorem sbTag_ne_of_key (a b : Nat) (t n m : List Nat) (hab : a ≠ b) :
    sbTag (a :: t) n m ≠ sbTag (b :: t) n m := by
  intro h
  rw [sbTag, sbTag, List.cons.injEq] at h
  have h1 := (Nat.pair_eq_pair.mp h.1).1
  have h2 := (Nat.pair_eq_pair.mp h1).2
  simp only [natsVal] at h2
  exact hab (Nat.pair_eq_pair.mp h2).1

/-! Structural characterizations of SealT and OpenT -/

theorem SealT_none_eq (nonceR : Option (List Nat)) (pass msg : List Nat)
    (s : BufState) :
    SealT none nonceR pass msg s = (Except.error Err.ErrEncrypt, s) := rfl

theorem SealT_some_snd (sr : List Nat) (nonceR : Option (List Nat))
    (pass msg : List Nat) (s : BufState) :
    (SealT (some sr) nonceR pass msg s).2 =
      { s with keyBuf := some (List.replicate keySize 0),
               scryptBuf := some (List.replicate keySize 0),
               derives := s.derives + 1 } := by
  cases nonceR <;>
    simp [SealT, deriveKeyT, encrypt, Zero_copy_scrypt, Zero_scryptKey]

theorem OpenT_short_eq (pass msg : List Nat) (s : BufState)
    (h : msg.length < overhead) :
    OpenT pass msg s = (Except.error Err.ErrDecrypt, s) := by
  unfold OpenT; rw [if_pos h]

theorem OpenT_long_snd (pass msg : List Nat) (s : BufState)
    (h : ¬ msg.length < overhead) :
    (OpenT pass msg s).2 =
      { s with keyBuf := some (List.replicate keySize 0),
               scryptBuf := some (List.replicate keySize 0),
               derives := s.derives + 1 } := by
  unfold OpenT
  rw [if_neg h]
  cases hd : decrypt (copyBytes (List.replicate keySize 0)
      (scryptKey pass (msg.take saltSize) Iterations 8 1 keySize))
      (msg.drop saltSize) <;>
    simp [deriveKeyT, hd, Zero_copy_scrypt, Zero_scryptKey]

theorem OpenT_fst (pass msg : List Nat) (s : BufState) :
    (OpenT pass msg s).1 =
      if msg.length < overhead then Except.error Err.ErrDecrypt
      else
        match decrypt (deriveKey pass (msg.take saltSize)) (msg.drop saltSize) with
        | Except.error _ => Except.error Err.ErrDecrypt
        | Except.ok out => Except.ok out := by
  unfold OpenT
  by_cases h : msg.length < overhead
  · rw [if_pos h, if_pos h]
  · rw [if_neg h, if_neg h]
    cases hd : decrypt (deriveKey pass (msg.take saltSize)) (msg.drop saltSize) with
    | error e =>
      have hd2 : decrypt (copyBytes (List.replicate keySize 0)
          (scryptKey pass (msg.take saltSize) Iterations 8 1 keySize))
          (msg.drop saltSize) = Except.error e := hd
      simp [deriveKeyT, hd2]
    | ok out =>
      have hd2 : decrypt (copyBytes (List.replicate keySize 0)
          (scryptKey pass (msg.take saltSize) Iterations 8 1 keySize))
          (msg.drop saltSize) = Except.ok out := hd
      simp [deriveKeyT, hd2]

/-- The envelope produced by Seal when both randomness supplies succeed:
salt, then the nonce array, then the sealed box. -/
def sealedEnv (sr nr pass msg : List Nat) : List Nat :=
  copyBytes (List.replicate saltSize 0) sr ++
    (copyBytes (List.replicate nonceSize 0) (copyBytes (List.replicate nonceSize 0) nr) ++
      sbSeal (deriveKey pass (copyBytes (List.replicate saltSize 0) sr))
        (copyBytes (List.replicate nonceSize 0) nr) msg)

theorem Seal_some_eq (sr nr pass msg : List Nat) :
    Seal (some sr) (some nr) pass msg = Except.ok (sealedEnv sr nr pass msg) := rfl

theorem copy_copy_nonce (nr : List Nat) :
    copyBytes (List.replicate nonceSize 0) (copyBytes (List.replicate nonceSize 0) nr) =
      copyBytes (List.replicate nonceSize 0) nr := by
  apply copyBytes_eq_self
  simp [length_copyBytes]

theorem sealedEnv_eq (sr nr pass msg : List Nat) :
    sealedEnv sr nr pass msg =
      copyBytes (List.replicate saltSize 0) sr ++
        (copyBytes (List.replicate nonceSize 0) nr ++
          sbSeal (deriveKey pass (copyBytes (List.replicate saltSize 0) sr))
            (copyBytes (List.replicate nonceSize 0) nr) msg) := by
  unfold sealedEnv; rw [copy_copy_nonce]

theorem length_sealedEnv (sr nr pass msg : List Nat) :
    (sealedEnv sr nr pass msg).length = msg.length + overhead := by
  rw [sealedEnv_eq]
  simp [length_copyBytes, length_sbSeal, overhead, saltSize, nonceSize, sbOverhead]
  omega

theorem Open_sealedEnv (sr nr p1 p2 msg : List Nat) :
    Open p2 (sealedEnv sr nr p1 msg) =
      match sbOpen (deriveKey p2 (copyBytes (List.replicate saltSize 0) sr))
          (copyBytes (List.replicate nonceSize 0) nr)
          (sbSeal (deriveKey p1 (copyBytes (List.replicate saltSize 0) sr))
            (copyBytes (List.replicate nonceSize 0) nr) msg) with
      | some out => Except.ok out
      | none => Except.error Err.ErrDecrypt := by
  have hsalt : (copyBytes (List.replicate saltSize 0) sr).length = saltSize := by
    simp [length_copyBytes]
  have hnonce : (copyBytes (List.replicate nonceSize 0) nr).length = nonceSize := by
    simp [length_copyBytes]
  unfold Open
  rw [OpenT_fst]
  rw [if_neg (by rw [length_sealedEnv]; omega)]
  rw [sealedEnv_eq]
  rw [take_append_eq _ _ _ hsalt, drop_append_eq _ _ _ hsalt]
  have hguard : decryptLenGuard
      (copyBytes (List.replicate nonceSize 0) nr ++
        sbSeal (deriveKey p1 (copyBytes (List.replicate saltSize 0) sr))
          (copyBytes (List.replicate nonceSize 0) nr) msg) = false := by
    simp [decryptLenGuard, length_copyBytes, length_sbSeal, nonceSize, sbOverhead]
    omega
  unfold decrypt
  rw [hguard]
  simp only [Bool.false_eq_true, if_false]
  rw [take_append_eq _ _ _ hnonce, drop_append_eq _ _ _ hnonce]
  rw [copy_copy_nonce]
  cases hs : sbOpen (deriveKey p2 (copyBytes (List.replicate saltSize 0) sr))
      (copyBytes (List.replicate nonceSize 0) nr)
      (sbSeal (deriveKey p1 (copyBytes (List.replicate saltSize 0) sr))
        (copyBytes (List.replicate nonceSize 0) nr) msg) <;>
    rfl

/-! Claim theorems -/

/-- Claim C1: for every passphrase and every plaintext, including the empty
one, whenever the random source supplies the salt and nonce, Seal succeeds and
Open with the same passphrase recovers the original plaintext. -/
theorem seal_open_roundtrip (sr nr pass msg : List Nat) :
    ∃ env, Seal (some sr) (some nr) pass msg = Except.ok env ∧
      Open pass env = Except.ok msg := by
  refine ⟨sealedEnv sr nr pass msg, Seal_some_eq sr nr pass msg, ?_⟩
  rw [Open_sealedEnv, sbOpen_sbSeal]

/-- Claim C2: for two distinct passphrases, opening a sealed envelope with the
wrong passphrase fails with ErrDecrypt and never returns a plaintext. -/
theorem seal_open_wrong_pass (sr nr p1 p2 msg : List Nat)
    (h1 : validBytes p1) (h2 : validBytes p2) (hne : p1 ≠ p2) :
    ∃ env, Seal (some sr) (some nr) p1 msg = Except.ok env ∧
      Open p2 env = Except.error Err.ErrDecrypt := by
  refine ⟨sealedEnv sr nr p1 msg, Seal_some_eq sr nr p1 msg, ?_⟩
  rw [Open_sealedEnv, sbOpen_sbSeal_of_ne]
  rw [deriveKey_eq, deriveKey_eq]
  apply sbTag_ne_of_key
  intro hp
  exact hne (byteEncode_inj h1 h2 (Nat.pair_eq_pair.mp hp).1)

/-- Witness for C2 at concrete inputs. -/
theorem seal_open_wrong_pass_witness :
    validBytes [0] ∧ validBytes [1] ∧ ([0] : List Nat) ≠ [1] ∧
    ∃ env, Seal (some []) (some []) [0] [] = Except.ok env ∧
      Open [1] env = Except.error Err.ErrDecrypt :=
  ⟨by decide, by decide, by decide,
    seal_open_wrong_pass [] [] [0] [1] [] (by decide) (by decide) (by decide)⟩

/-- Claim C3: Zero leaves every byte of its buffer zero, and on every exit
path of Seal and Open, success or failure, the derived key buffer (and the
intermediate scrypt output buffer) is either never allocated or all-zero at
return. -/
theorem zeroisation (buf : List Nat) (saltR nonceR : Option (List Nat))
    (pass msg : List Nat) :
    ((Zero buf).length = buf.length ∧ ∀ b ∈ Zero buf, b = 0) ∧
    ((SealT saltR nonceR pass msg (initState pass msg)).2.keyBuf = none ∨
      (SealT saltR nonceR pass msg (initState pass msg)).2.keyBuf =
        some (List.replicate keySize 0)) ∧
    ((SealT saltR nonceR pass msg (initState pass msg)).2.scryptBuf = none ∨
      (SealT saltR nonceR pass msg (initState pass msg)).2.scryptBuf =
        some (List.replicate keySize 0)) ∧
    ((OpenT pass msg (initState pass msg)).2.keyBuf = none ∨
      (OpenT pass msg (initState pass msg)).2.keyBuf =
        some (List.replicate keySize 0)) ∧
    ((OpenT pass msg (initState pass msg)).2.scryptBuf = none ∨
      (OpenT pass msg (initState pass msg)).2.scryptBuf =
        some (List.replicate keySize 0)) := by
  refine ⟨⟨by simp [Zero], by simp [Zero]⟩, ?_, ?_, ?_, ?_⟩
  · cases saltR with
    | none => exact Or.inl rfl
    | some sr => exact Or.inr (by rw [SealT_some_snd])
  · cases saltR with
    | none => exact Or.inl rfl
    | some sr => exact Or.inr (by rw [SealT_some_snd])
  · by_cases h : msg.length < overhead
    · exact Or.inl (by rw [OpenT_short_eq _ _ _ h]; rfl)
    · exact Or.inr (by rw [OpenT_long_snd _ _ _ h])
  · by_cases h : msg.length < overhead
    · exact Or.inl (by rw [OpenT_short_eq _ _ _ h]; rfl)
    · exact Or.inr (by rw [OpenT_long_snd _ _ _ h])

/-- Claim C4: when Seal succeeds, the envelope length is the plaintext length
plus the fixed overhead of 72 bytes: salt 32, nonce 24, tag 16. -/
theorem seal_length (sr nr pass msg : List Nat) :
    ∃ env, Seal (some sr) (some nr) pass msg = Except.ok env ∧
      env.length = msg.length + 72 ∧
      overhead = 72 ∧ saltSize = 32 ∧ nonceSize = 24 ∧ sbOverhead = 16 := by
  refine ⟨sealedEnv sr nr pass msg, Seal_some_eq sr nr pass msg, ?_, rfl, rfl,
    rfl, rfl⟩
  rw [length_sealedEnv]
  rfl

/-- Claim C5: on input shorter than the 72-byte overhead, Open fails
immediately with ErrDecrypt, leaves the state untouched, and performs no key
derivation. -/
theorem open_short_input (pass msg : List Nat) (h : msg.length < overhead) :
    OpenT pass msg (initState pass msg) =
      (Except.error Err.ErrDecrypt, initState pass msg) ∧
    (OpenT pass msg (initState pass msg)).2.derives = 0 := by
  have he := OpenT_short_eq pass msg (initState pass msg) h
  exact ⟨he, by rw [he]; rfl⟩

/-- Witness for C5 at concrete inputs. -/
theorem open_short_input_witness :
    ([] : List Nat).length < overhead ∧
    (OpenT [] [] (initState [] []) =
        (Except.error Err.ErrDecrypt, initState [] []) ∧
      (OpenT [] [] (initState [] [])).2.derives = 0) :=
  ⟨by decide, open_short_input [] [] (by decide)⟩

/-- Claim C6: every failure of Open is the single undifferentiated ErrDecrypt
value; Open either returns a plaintext or ErrDecrypt, never any other error. -/
theorem open_single_error (pass msg : List Nat) :
    (∃ out, Open pass msg = Except.ok out) ∨
      Open pass msg = Except.error Err.ErrDecrypt := by
  unfold Open
  rw [OpenT_fst]
  by_cases h : msg.length < overhead
  · rw [if_pos h]
    exact Or.inr rfl
  · rw [if_neg h]
    cases hd : decrypt (deriveKey pass (msg.take saltSize)) (msg.drop saltSize) with
    | error e => exact Or.inr rfl
    | ok out => exact Or.inl ⟨out, rfl⟩

/-- Claim C7: encrypt succeeds for every key and plaintext given nonce
randomness, the internally generated nonce is prepended to the returned
buffer, and the secretbox ciphertext after it is the plaintext length plus the
16-byte tag overhead. -/
theorem encrypt_length_nonce (nr key msg : List Nat) :
    ∃ ct, encrypt (some nr) key msg =
        Except.ok (copyBytes (List.replicate nonceSize 0) nr ++ ct) ∧
      ct.length = msg.length + sbOverhead := by
  refine ⟨sbSeal key (copyBytes (List.replicate nonceSize 0) nr) msg, ?_,
    length_sbSeal _ _ _⟩
  show Except.ok (copyBytes (List.replicate nonceSize 0)
      (copyBytes (List.replicate nonceSize 0) nr) ++
    sbSeal key (copyBytes (List.replicate nonceSize 0) nr) msg) = _
  rw [copy_copy_nonce]

/-- Claim C8: key derivation is deterministic: identical passphrase and salt
yield the identical key regardless of surrounding state, and the key is 32
bytes. -/
theorem deriveKey_deterministic (pass salt : List Nat) (s1 s2 : BufState) :
    (deriveKeyT pass salt s1).1 = (deriveKeyT pass salt s2).1 ∧
    (deriveKeyT pass salt s1).1 = deriveKey pass salt ∧
    (deriveKey pass salt).length = keySize :=
  ⟨rfl, rfl, length_deriveKey pass salt⟩

/-- Claim C9: Seal and Open leave the caller-supplied passphrase and message
buffers unchanged at return on every path. -/
theorem caller_buffers_preserved (saltR nonceR : Option (List Nat))
    (pass msg : List Nat) :
    (SealT saltR nonceR pass msg (initState pass msg)).2.passBuf = pass ∧
    (SealT saltR nonceR pass msg (initState pass msg)).2.msgBuf = msg ∧
    (OpenT pass msg (initState pass msg)).2.passBuf = pass ∧
    (OpenT pass msg (initState pass msg)).2.msgBuf = msg := by
  have hseal : ∀ g : BufState → List Nat,
      g (initState pass msg) =
        g { initState pass msg with
              keyBuf := some (List.replicate keySize 0),
              scryptBuf := some (List.replicate keySize 0),
              derives := (initState pass msg).derives + 1 } →
      g (SealT saltR nonceR pass msg (initState pass msg)).2 =
        g (initState pass msg) := by
    intro g hg
    cases saltR with
    | none => rw [SealT_none_eq]
    | some sr => rw [SealT_some_snd, ← hg]
  have hopen : ∀ g : BufState → List Nat,
      g (initState pass msg) =
        g { initState pass msg with
              keyBuf := some (List.replicate keySize 0),
              scryptBuf := some (List.replicate keySize 0),
              derives := (initState pass msg).derives + 1 } →
      g (OpenT pass msg (initState pass msg)).2 = g (initState pass msg) := by
    intro g hg
    by_cases h : msg.length < overhead
    · rw [OpenT_short_eq _ _ _ h]
    · rw [OpenT_long_snd _ _ _ h, ← hg]
  exact ⟨hseal (fun s => s.passBuf) rfl, hseal (fun s => s.msgBuf) rfl,
    hopen (fun s => s.passBuf) rfl, hopen (fun s => s.msgBuf) rfl⟩

/-- Claim C10: whenever the minimum-length guard of Open passes, the length
check at the top of decrypt, applied to the message with the salt stripped,
is false: that rejection branch is unreachable from Open. -/
theorem decrypt_guard_unreachable (msg : List Nat)
    (h : overhead ≤ msg.length) :
    decryptLenGuard (msg.drop saltSize) = false := by
  simp only [decryptLenGuard, decide_eq_false_iff_not, not_lt, List.length_drop]
  simp only [overhead, saltSize, nonceSize, sbOverhead] at h ⊢
  omega

/-- Witness for C10 at a concrete 72-byte input. -/
theorem decrypt_guard_unreachable_witness :
    overhead ≤ (List.replicate 72 (0 : Nat)).length ∧
    decryptLenGuard ((List.replicate 72 (0 : Nat)).drop saltSize) = false :=
  ⟨by decide, decrypt_guard_unreachable (List.replicate 72 0) (by decide)⟩

end Filecrypt
